import Mathlib

/-!
Verification of the products-data batch utilities against their
natural-language specification.

The repository has two scripts:
  * `generate_category_csvs.py` — builds per-category and master CSV
    summaries from per-product YAML files;
  * `rename_yaml_to_short_id.py` — renames YAML files from a long
    identifier (their filename) to the short `open_xpd_uuid` found in the
    file, deleting the file when the target name already exists.

This file gives a shallow embedding of the relevant functions.  YAML
documents are modelled by the inductive `Yaml`; Python semantics that the
code relies on (truthiness, `in` membership, subscription, `str.replace`)
are modelled explicitly.  A category directory is modelled as an
association list from filenames to parsed documents, and the rename tool's
per-file loop as a step function over that state.
-/

namespace ProductsData

/-- A parsed YAML value (the subset of Python values produced by
`yaml.safe_load` that this code base manipulates; mapping keys are
strings, as in the catalog files). -/
inductive Yaml where
  | null : Yaml
  | bool (b : Bool) : Yaml
  | int (n : Int) : Yaml
  | str (s : String) : Yaml
  | list (l : List Yaml) : Yaml
  | map (m : List (String × Yaml)) : Yaml

/-- Python truthiness (`if not x`, `if x`) for the modelled values. -/
def pyTruthy : Yaml → Bool
  | .null => false
  | .bool b => b
  | .int n => n != 0
  | .str s => s != ""
  | .list l => !l.isEmpty
  | .map m => !m.isEmpty

/-- `isinstance(x, str)`. -/
def isStr : Yaml → Bool
  | .str _ => true
  | _ => false

/-- Is the value a list element equal to the string `k`?  Used for Python
`in` on lists (`==` across types is `False` there). -/
def eqStr (k : String) : Yaml → Bool
  | .str s => s == k
  | _ => false

/-- Occurrence test for a pattern in a character list: does `pat` occur as
a contiguous substring?  (Faithful to Python `pat in s` for non-empty
`pat`.) -/
def containsPat (pat : List Char) : List Char → Bool
  | [] => false
  | c :: rest => pat.isPrefixOf (c :: rest) || containsPat pat rest

/-- Python `k in v`: key membership for mappings, element membership for
lists, substring test for strings, `TypeError` for the other values. -/
def pyContains (v : Yaml) (k : String) : Except Unit Bool :=
  match v with
  | .map m => .ok (m.lookup k).isSome
  | .list l => .ok (l.any (eqStr k))
  | .str s => .ok (containsPat k.data s.data)
  | _ => .error ()

/-- Python `v[k]` for a string key: mapping lookup (`KeyError` when the
key is absent), `TypeError` for every other value. -/
def pyGetItem (v : Yaml) (k : String) : Except Unit Yaml :=
  match v with
  | .map m =>
    match m.lookup k with
    | some x => .ok x
    | none => .error ()
  | _ => .error ()

/-- Worker for `pyReplaceAll`, structurally recursive on a fuel bound so
that it evaluates inside the kernel.  Scans left to right; on a match the
matched block is dropped and scanning resumes after it — exactly Python's
`str.replace(pat, '')` for non-empty `pat` (and the identity for empty
`pat`, as `replace('', '')` is). -/
def removeAllAux (pat : List Char) : Nat → List Char → List Char
  | _, [] => []
  | 0, l => l
  | fuel + 1, c :: rest =>
    if pat ≠ [] ∧ pat.isPrefixOf (c :: rest) then
      removeAllAux pat fuel ((c :: rest).drop pat.length)
    else
      c :: removeAllAux pat fuel rest

/-- Python `s.replace(pat, '')`: remove every (non-overlapping, leftmost)
occurrence of `pat` from `s`. -/
def pyReplaceAll (s pat : String) : String :=
  ⟨removeAllAux pat.data s.data.length s.data⟩

/-- Embeds `extract_product_name` (generate_category_csvs.py, lines
16-17): the shared tail of the `elif` chain — top-level `product_name`,
else the literal fallback. -/
def productNameFallback (yaml_data : Yaml) : Except Unit Yaml :=
  match pyContains yaml_data "product_name" with
  | .error e => .error e
  | .ok true => pyGetItem yaml_data "product_name"
  | .ok false => .ok (.str "Unknown Product")

/-- Embeds `extract_product_name` (generate_category_csvs.py, lines 6-19):
the `if/elif/elif/else` chain over `name`, `product_specific.product_name`
and `product_name`, with Python's short-circuit `and` and its raising
membership/subscription semantics. -/
def extract_product_name (yaml_data : Yaml) : Except Unit Yaml :=
  match pyContains yaml_data "name" with
  | .error e => .error e
  | .ok true => pyGetItem yaml_data "name"
  | .ok false =>
    match pyContains yaml_data "product_specific" with
    | .error e => .error e
    | .ok false => productNameFallback yaml_data
    | .ok true =>
      match pyGetItem yaml_data "product_specific" with
      | .error e => .error e
      | .ok ps =>
        match pyContains ps "product_name" with
        | .error e => .error e
        | .ok true => pyGetItem ps "product_name"
        | .ok false => productNameFallback yaml_data

/-- Embeds `extract_short_id` (generate_category_csvs.py, lines 21-31):
return `yaml_data['open_xpd_uuid']` whenever the key is present, else the
filename with `.replace('.yaml', '').replace('.yml', '')` applied. -/
def extract_short_id (yaml_data : Yaml) (filename : String) : Except Unit Yaml :=
  match pyContains yaml_data "open_xpd_uuid" with
  | .error e => .error e
  | .ok true => pyGetItem yaml_data "open_xpd_uuid"
  | .ok false => .ok (.str (pyReplaceAll (pyReplaceAll filename ".yaml") ".yml"))

/-! ## The Identifier Normalizer (rename_yaml_to_short_id.py)

A category directory is an association list from filenames to parsed
documents; a document is `none` when opening or parsing the file raises
(the `except` branch of the loop), and `some y` when `yaml.safe_load`
returns the value `y` (`Yaml.null` for an empty file). -/

/-- The result of loading one file: `none` when reading/parsing raises. -/
abbrev Doc := Option Yaml

/-- A category directory: existing filenames with their contents. -/
abbrev FileState := List (String × Doc)

/-- Python `filename.endswith(suffix)`. -/
def strEndsWith (s suffix : String) : Bool :=
  suffix.data.isSuffixOf s.data

/-- The listdir filter of both scripts:
`f.endswith('.yaml') or f.endswith('.yml')`. -/
def yamlishName (f : String) : Bool :=
  strEndsWith f ".yaml" || strEndsWith f ".yml"

/-- The files the rename loop iterates over (rename_yaml_to_short_id.py,
lines 23-24): the directory listing restricted to YAML extensions. -/
def yamlFiles (st : FileState) : List String :=
  (st.map Prod.fst).filter yamlishName

/-- `os.path.exists` within the category directory. -/
def existsFile (st : FileState) (name : String) : Bool :=
  st.any (fun e => e.1 == name)

/-- `os.remove` within the category directory. -/
def removeFile (st : FileState) (name : String) : FileState :=
  st.filter (fun e => e.1 != name)

/-- `os.rename` within the category directory (the target is known not to
exist when the tool calls it). -/
def renameFile (st : FileState) (oldName newName : String) : FileState :=
  st.map (fun e => if e.1 == oldName then (newName, e.2) else e)

/-- `filename.replace('.yaml', '').replace('.yml', '')`
(rename_yaml_to_short_id.py, line 57): the stem the tool compares with
the short id.  Note this removes every occurrence of the two extension
strings, not only a trailing one. -/
def stemOf (filename : String) : String :=
  pyReplaceAll (pyReplaceAll filename ".yaml") ".yml"

/-- The decision the loop body takes for one file before any filesystem
effect (rename_yaml_to_short_id.py, lines 33-63). -/
inductive Decision where
  | skipEmpty : Decision
  | errNoId : Decision
  | errBadId : Decision
  | skipNoop : Decision
  | act (shortId : String) : Decision
  | errExc : Decision
deriving DecidableEq

/-- Embeds the decision chain of the loop body
(rename_yaml_to_short_id.py, lines 33-63):
empty/invalid YAML → skip; no top-level `open_xpd_uuid` → error count;
falsy or non-string id → error count; stem already equals the id → no-op
skip; otherwise proceed with that id.  Any raised exception (read/parse
failure, `in` on a non-container, subscription failure) is caught by the
surrounding `try` and becomes `errExc`. -/
def decideFile (filename : String) (d : Doc) : Decision :=
  match d with
  | none => .errExc
  | some y =>
    if !pyTruthy y then .skipEmpty
    else
      match pyContains y "open_xpd_uuid" with
      | .error _ => .errExc
      | .ok false => .errNoId
      | .ok true =>
        match pyGetItem y "open_xpd_uuid" with
        | .error _ => .errExc
        | .ok (.str s) =>
          if s = "" then .errBadId
          else if stemOf filename = s then .skipNoop
          else .act s
        | .ok _ => .errBadId

/-- What the loop reports for one file. -/
inductive Action where
  | skippedEmpty : Action
  | errorNoId : Action
  | errorBadId : Action
  | skippedNoop : Action
  | deleted : Action
  | renamed (newName : String) : Action
  | errored : Action
deriving DecidableEq

/-- One iteration of the loop of `rename_yaml_files_in_category`
(rename_yaml_to_short_id.py, lines 30-86): read the file, decide, then —
unless `dry_run` — delete the file when the target `<id>.yaml` already
exists, else rename it to `<id>.yaml`. -/
def stepFile (dryRun : Bool) (st : FileState) (filename : String) :
    Action × FileState :=
  match decideFile filename (st.lookup filename).join with
  | .skipEmpty => (.skippedEmpty, st)
  | .errNoId => (.errorNoId, st)
  | .errBadId => (.errorBadId, st)
  | .skipNoop => (.skippedNoop, st)
  | .errExc => (.errored, st)
  | .act shortId =>
    let newName := shortId ++ ".yaml"
    if existsFile st newName then
      (.deleted, if dryRun then st else removeFile st filename)
    else
      (.renamed newName, if dryRun then st else renameFile st filename newName)

/-- The loop of `rename_yaml_files_in_category` over the listing taken at
entry, threading the directory state. -/
def processFiles (dryRun : Bool) (st : FileState) :
    List String → FileState × List Action
  | [] => (st, [])
  | n :: rest =>
    let r := stepFile dryRun st n
    let rec' := processFiles dryRun r.2 rest
    (rec'.1, r.1 :: rec'.2)

/-- Embeds `rename_yaml_files_in_category`
(rename_yaml_to_short_id.py, lines 4-97): list the YAML files once, then
process each in order. -/
def rename_yaml_files_in_category (dryRun : Bool) (st : FileState) :
    FileState × List Action :=
  processFiles dryRun st (yamlFiles st)

/-- Embeds `rename_all_yaml_files` (rename_yaml_to_short_id.py, lines
99-130): each category directory is processed independently. -/
def rename_all_yaml_files (dryRun : Bool)
    (catalog : List (String × FileState)) :
    List (String × (FileState × List Action)) :=
  catalog.map (fun c => (c.1, rename_yaml_files_in_category dryRun c.2))

/-- The per-category tallies (rename_yaml_to_short_id.py, lines 18-20). -/
structure Tally where
  renamed : Nat
  skipped : Nat
  errors : Nat
deriving DecidableEq

/-- How one reported action updates the tallies
(rename_yaml_to_short_id.py, lines 40, 46, 53, 59, 74, 82, 86): the
delete-on-collision branch `continue`s without touching any counter. -/
def tallyAction (t : Tally) : Action → Tally
  | .skippedEmpty => { t with skipped := t.skipped + 1 }
  | .errorNoId => { t with errors := t.errors + 1 }
  | .errorBadId => { t with errors := t.errors + 1 }
  | .skippedNoop => { t with skipped := t.skipped + 1 }
  | .deleted => t
  | .renamed _ => { t with renamed := t.renamed + 1 }
  | .errored => { t with errors := t.errors + 1 }

/-- The summary counts a run reports. -/
def tallyOf (acts : List Action) : Tally :=
  acts.foldl tallyAction ⟨0, 0, 0⟩

/-- Is the action a rename? -/
def isRenamed : Action → Bool
  | .renamed _ => true
  | _ => false

/-- Number of renames a run performed/reported. -/
def countRenames (acts : List Action) : Nat :=
  acts.countP isRenamed

/-- Number of deletions a run performed/reported. -/
def countDeletes (acts : List Action) : Nat :=
  acts.countP (fun a => a == .deleted)

/-! ## The CSV Reporter (generate_category_csvs.py) -/

/-- A per-category CSV data row (generate_category_csvs.py, lines 67-73).
The sorting claims are about collected records, whose fields serialize to
strings. -/
structure ProductRow where
  id : String
  name : String
  gwp : String
  declared_unit : String
  category : String
deriving DecidableEq

/-- A master CSV data row (generate_category_csvs.py, lines 199-206). -/
structure MasterRow where
  region : String
  category : String
  id : String
  name : String
  gwp : String
  declared_unit : String
deriving DecidableEq

/-- The per-category sort key comparison:
`sorted(products, key=lambda x: x['name'])` compares names with Python's
code-point lexicographic string order. -/
def categoryNameLe (a b : ProductRow) : Prop :=
  a.name ≤ b.name

instance : DecidableRel categoryNameLe :=
  fun a b => inferInstanceAs (Decidable (a.name ≤ b.name))

/-- The master sort key (generate_category_csvs.py, line 218):
`(x['region'], x['category'], x['name'])`. -/
def masterKey (p : MasterRow) : String × String × String :=
  (p.region, p.category, p.name)

/-- Python's lexicographic comparison of the 3-tuples used as master sort
keys. -/
def lex3Le (a b : String × String × String) : Prop :=
  a.1 < b.1 ∨ (a.1 = b.1 ∧ (a.2.1 < b.2.1 ∨ (a.2.1 = b.2.1 ∧ a.2.2 ≤ b.2.2)))

instance : ∀ a b, Decidable (lex3Le a b) :=
  fun _ _ => inferInstanceAs (Decidable (_ ∨ _))

/-- The master sort comparison. -/
def masterKeyLe (a b : MasterRow) : Prop :=
  lex3Le (masterKey a) (masterKey b)

instance : DecidableRel masterKeyLe :=
  fun a b => inferInstanceAs (Decidable (lex3Le (masterKey a) (masterKey b)))

/-- Embeds the row order of `generate_category_csv`
(generate_category_csvs.py, lines 90-91): the rows are written in the
order produced by Python's stable `sorted` with key `x['name']`, modelled
by the stable insertion sort under the same comparison. -/
def generate_category_csv_rows (products : List ProductRow) : List ProductRow :=
  products.insertionSort categoryNameLe

/-- Embeds the row order of `generate_master_csv`
(generate_category_csvs.py, lines 218-219): Python's stable `sorted` with
key `(region, category, name)`. -/
def generate_master_csv_rows (all_products : List MasterRow) : List MasterRow :=
  all_products.insertionSort masterKeyLe

/-- `os.path.join` for a relative second component. -/
def pyPathJoin (a b : String) : String :=
  if a = "" then b
  else if strEndsWith a "/" then a ++ b
  else a ++ "/" ++ b

/-- Embeds the path at which `generate_master_csv` opens its output
(generate_category_csvs.py, lines 163 and 213): the `output_file`
argument is used verbatim, relative to the working directory. -/
def generate_master_csv_output_path (base_path output_file : String) : String :=
  output_file

/-- Embeds the `__main__` invocation `generate_master_csv(args.path)`
(generate_category_csvs.py, line 237): `output_file` keeps its default
`'all_products.csv'`. -/
def master_csv_path_main (base_path : String) : String :=
  generate_master_csv_output_path base_path "all_products.csv"

/-! ## Definitions taken from the claims' words (for comparison only) -/

/-- Modelled from the claim's words (C6): the master CSV created at
`<basePath>/all_products.csv`. -/
def claimed_master_csv_path (base_path : String) : String :=
  pyPathJoin base_path "all_products.csv"

/-- `s` minus its last `n` characters. -/
def strDropRight (s : String) (n : Nat) : String :=
  ⟨s.data.take (s.data.length - n)⟩

/-- Modelled from the claims' words (C2, C3): the filename stem obtained
by stripping exactly a trailing `.yaml` or `.yml` suffix and nothing
else. -/
def claimed_stem (filename : String) : String :=
  if strEndsWith filename ".yaml" then strDropRight filename 5
  else if strEndsWith filename ".yml" then strDropRight filename 4
  else filename

/-- Modelled from the claim's words (C5): the name-resolution cascade —
top-level `name`, else `product_specific.product_name` when
`product_specific` is present and itself a mapping, else top-level
`product_name`, else the literal fallback. -/
def claimed_product_name (m : List (String × Yaml)) : Yaml :=
  match m.lookup "name" with
  | some v => v
  | none =>
    match m.lookup "product_specific" with
    | some (.map pm) =>
      match pm.lookup "product_name" with
      | some v => v
      | none =>
        match m.lookup "product_name" with
        | some v => v
        | none => .str "Unknown Product"
    | _ =>
      match m.lookup "product_name" with
      | some v => v
      | none => .str "Unknown Product"

/-! ## Auxiliary predicates used by the theorems -/

/-- Neither `.yaml` nor `.yml` occurs (anywhere) in `s`. -/
def noExtOcc (s : String) : Prop :=
  containsPat ".yaml".data s.data = false ∧ containsPat ".yml".data s.data = false

/-- `pat` has no nonempty proper border (no proper nonempty prefix that is
also a suffix); both extension patterns are borderless, which is what
makes their removal from `s ++ pat` well behaved at the junction. -/
def borderlessPat (pat : List Char) : Prop :=
  ∀ k < pat.length, 0 < k → pat.drop k ≠ pat.take (pat.length - k)

/-- The valid short id the rename tool accepts for a document, when there
is one: the document parsed, is truthy, has `open_xpd_uuid`, and that
value is a non-empty string.  (Mirrors the guard chain of `decideFile`;
it is what the decision depends on besides the filename.) -/
def uuidOf : Doc → Option String
  | none => none
  | some y =>
    if !pyTruthy y then none
    else
      match pyContains y "open_xpd_uuid" with
      | .error _ => none
      | .ok false => none
      | .ok true =>
        match pyGetItem y "open_xpd_uuid" with
        | .error _ => none
        | .ok (.str s) => if s = "" then none else some s
        | .ok _ => none

/-- Does the decision lead to the collision check (rename or delete)? -/
def isAct : Decision → Bool
  | .act _ => true
  | _ => false

/-- The document's valid short id, when present, contains no occurrence
of `.yaml` or `.yml` (Boolean form, for concrete evaluation). -/
def goodDocB (d : Doc) : Bool :=
  match uuidOf d with
  | some s => !containsPat ".yaml".data s.data && !containsPat ".yml".data s.data
  | none => true

/-- Is the value a YAML mapping? -/
def isMapB : Yaml → Bool
  | .map _ => true
  | _ => false

/-- The `product_specific` key, when present in the document, holds a
mapping. -/
def psIsMapOrAbsent (m : List (String × Yaml)) : Bool :=
  match m.lookup "product_specific" with
  | some v => isMapB v
  | none => true

/-! ## Helper lemmas: pattern removal -/

theorem borderless_yaml : borderlessPat ".yaml".data := by
  unfold borderlessPat; decide

theorem borderless_yml : borderlessPat ".yml".data := by
  unfold borderlessPat; decide

theorem removeAllAux_of_not_contains (pat : List Char) :
    ∀ (l : List Char) (fuel : Nat), l.length ≤ fuel →
      containsPat pat l = false → removeAllAux pat fuel l = l := by
  intro l
  induction l with
  | nil => intro fuel _ _; cases fuel <;> rfl
  | cons c rest ih =>
    intro fuel hfuel hnc
    cases fuel with
    | zero => simp at hfuel
    | succ f =>
      have hnc2 : pat.isPrefixOf (c :: rest) = false ∧ containsPat pat rest = false := by
        simpa [containsPat, Bool.or_eq_false_iff] using hnc
      have hguard : ¬ (pat ≠ [] ∧ pat.isPrefixOf (c :: rest)) := by
        rintro ⟨-, hp⟩
        rw [hnc2.1] at hp
        exact Bool.false_ne_true hp
      simp only [removeAllAux, if_neg hguard]
      rw [ih f (by simpa using Nat.lt_succ_iff.mp (Nat.lt_succ_of_le hfuel)) hnc2.2]

theorem not_isPrefixOf_cons_append (pat : List Char) (hb : borderlessPat pat)
    (c : Char) (l : List Char) (hnc : containsPat pat (c :: l) = false) :
    pat.isPrefixOf ((c :: l) ++ pat) = false := by
  by_contra hne
  have hpre : pat <+: (c :: l) ++ pat :=
    List.isPrefixOf_iff_prefix.mp (Bool.of_not_eq_false hne)
  have htake : pat = ((c :: l) ++ pat).take pat.length :=
    List.prefix_iff_eq_take.mp hpre
  rcases le_or_lt pat.length (c :: l).length with hle | hlt
  · have hpre2 : pat.isPrefixOf (c :: l) = true := by
      apply List.isPrefixOf_iff_prefix.mpr
      rw [List.take_append_eq_append_take, Nat.sub_eq_zero_of_le hle, List.take_zero,
        List.append_nil] at htake
      rw [htake]
      exact List.take_prefix _ _
    have : containsPat pat (c :: l) = true := by
      unfold containsPat
      rw [hpre2, Bool.true_or]
    rw [this] at hnc
    simp at hnc
  · have heq : pat = (c :: l) ++ pat.take (pat.length - (c :: l).length) := by
      rw [List.take_append_eq_append_take, List.take_of_length_le (le_of_lt hlt)] at htake
      exact htake
    have hdrop : pat.drop (c :: l).length = pat.take (pat.length - (c :: l).length) := by
      conv_lhs => rw [heq]
      exact List.drop_left _ _
    exact hb (c :: l).length hlt (by simp) hdrop

theorem removeAllAux_append_pat (pat : List Char) (hne : pat ≠ [])
    (hb : borderlessPat pat) :
    ∀ (l : List Char) (fuel : Nat), l.length + pat.length ≤ fuel →
      containsPat pat l = false → removeAllAux pat fuel (l ++ pat) = l := by
  intro l
  induction l with
  | nil =>
    intro fuel hfuel _
    match pat, hne with
    | p :: ps, _ =>
      cases fuel with
      | zero => simp at hfuel
      | succ f =>
        have hguard : (p :: ps) ≠ [] ∧ (p :: ps).isPrefixOf (p :: ps) := by
          refine ⟨by simp, ?_⟩
          simp [ List.isPrefixOf_iff_prefix]
        simp only [List.nil_append, removeAllAux, if_pos hguard]
        rw [List.drop_length]
        cases f <;> rfl
  | cons c rest ih =>
    intro fuel hfuel hnc
    have hnc2 : pat.isPrefixOf (c :: rest) = false ∧ containsPat pat rest = false := by
      simpa [containsPat, Bool.or_eq_false_iff] using hnc
    cases fuel with
    | zero => simp at hfuel
    | succ f =>
      have hpref := not_isPrefixOf_cons_append pat hb c rest hnc
      rw [List.cons_append] at hpref
      have hguard : ¬ (pat ≠ [] ∧ pat.isPrefixOf (c :: (rest ++ pat)) = true) := by
        rintro ⟨-, hp⟩
        rw [hpref] at hp
        simp at hp
      show removeAllAux pat (f + 1) (c :: (rest ++ pat)) = c :: rest
      simp only [removeAllAux]
      rw [if_neg hguard]
      rw [ih f (by simp at hfuel; omega) hnc2.2]

theorem pyReplaceAll_of_not_contains (s pat : String)
    (h : containsPat pat.data s.data = false) : pyReplaceAll s pat = s := by
  unfold pyReplaceAll
  rw [removeAllAux_of_not_contains pat.data s.data s.data.length (le_refl _) h]

theorem pyReplaceAll_append_of_not_contains (s pat : String) (hne : pat.data ≠ [])
    (hb : borderlessPat pat.data) (h : containsPat pat.data s.data = false) :
    pyReplaceAll (s ++ pat) pat = s := by
  unfold pyReplaceAll
  have hdata : (s ++ pat).data = s.data ++ pat.data := rfl
  rw [hdata]
  rw [removeAllAux_append_pat pat.data hne hb s.data (s.data ++ pat.data).length
    (by simp) h]

theorem stemOf_append_yaml (s : String) (h : noExtOcc s) :
    stemOf (s ++ ".yaml") = s := by
  unfold stemOf
  rw [pyReplaceAll_append_of_not_contains s ".yaml" (by decide) borderless_yaml h.1]
  exact pyReplaceAll_of_not_contains s ".yml" h.2

/-! ## Helper lemmas: the rename decision -/

theorem decideFile_of_uuid_some (n : String) (d : Doc) (s : String)
    (h : uuidOf d = some s) :
    decideFile n d = if stemOf n = s then Decision.skipNoop else Decision.act s := by
  cases d with
  | none => simp [uuidOf] at h
  | some y =>
    simp only [uuidOf] at h
    simp only [decideFile]
    cases hpt : pyTruthy y with
    | false => simp [hpt] at h
    | true =>
      simp only [hpt, Bool.not_true] at h ⊢
      simp only [Bool.false_eq_true, if_false] at h ⊢
      cases hc : pyContains y "open_xpd_uuid" with
      | error e => simp [hc] at h
      | ok b =>
        simp only [hc] at h ⊢
        cases b with
        | false => simp at h
        | true =>
          simp only at h ⊢
          cases hg : pyGetItem y "open_xpd_uuid" with
          | error e => simp [hg] at h
          | ok v =>
            simp only [hg] at h ⊢
            cases v with
            | str s' =>
              simp only at h ⊢
              by_cases hs : s' = ""
              · simp [hs] at h
              · rw [if_neg hs] at h
                rw [if_neg hs]
                have : s' = s := by simpa using h
                subst this
                rfl
            | null => simp at h
            | bool b => simp at h
            | int k => simp at h
            | list l => simp at h
            | map m => simp at h

theorem decideFile_not_act_of_uuid_none (n : String) (d : Doc)
    (h : uuidOf d = none) : isAct (decideFile n d) = false := by
  cases d with
  | none => rfl
  | some y =>
    simp only [uuidOf] at h
    simp only [decideFile]
    cases hpt : pyTruthy y with
    | false => simp [hpt, isAct]
    | true =>
      simp only [hpt, Bool.not_true] at h ⊢
      simp only [Bool.false_eq_true, if_false] at h ⊢
      cases hc : pyContains y "open_xpd_uuid" with
      | error e => simp [hc, isAct]
      | ok b =>
        simp only [hc] at h ⊢
        cases b with
        | false => simp [isAct]
        | true =>
          simp only at h ⊢
          cases hg : pyGetItem y "open_xpd_uuid" with
          | error e => simp [hg, isAct]
          | ok v =>
            simp only [hg] at h ⊢
            cases v with
            | str s' =>
              simp only at h ⊢
              by_cases hs : s' = ""
              · simp [hs, isAct]
              · rw [if_neg hs] at h; simp at h
            | null => simp [isAct]
            | bool b => simp [isAct]
            | int k => simp [isAct]
            | list l => simp [isAct]
            | map m => simp [isAct]

theorem uuid_some_of_decideFile_act (n : String) (d : Doc) (s : String)
    (h : decideFile n d = .act s) : uuidOf d = some s := by
  cases hu : uuidOf d with
  | none =>
    have h2 := decideFile_not_act_of_uuid_none n d hu
    rw [h] at h2
    simp [isAct] at h2
  | some s' =>
    have h2 := decideFile_of_uuid_some n d s' hu
    rw [h] at h2
    by_cases hst : stemOf n = s'
    · rw [if_pos hst] at h2; simp at h2
    · rw [if_neg hst] at h2
      simp only [Decision.act.injEq] at h2
      rw [h2]


/-! ## Helper lemmas: directory state operations -/

theorem mem_of_lookup_eq_some {st : FileState} {n : String} {d : Doc}
    (h : st.lookup n = some d) : (n, d) ∈ st := by
  induction st with
  | nil => simp [List.lookup] at h
  | cons e rest ih =>
    match e with
    | (k, v) =>
      rw [List.lookup] at h
      cases hk : n == k with
      | true =>
        simp only [hk] at h
        have hnk : n = k := by simpa using hk
        have hv : v = d := by simpa using h
        subst hnk; subst hv
        exact List.mem_cons_self _ _
      | false =>
        simp only [hk] at h
        exact List.mem_cons_of_mem _ (ih h)

theorem lookup_eq_some_of_mem_nodup {st : FileState} {n : String} {d : Doc}
    (hnd : (st.map Prod.fst).Nodup) (h : (n, d) ∈ st) : st.lookup n = some d := by
  induction st with
  | nil => simp at h
  | cons e rest ih =>
    match e with
    | (k, v) =>
      rw [List.map_cons, List.nodup_cons] at hnd
      rcases List.mem_cons.mp h with heq | hmem
      · rw [Prod.mk.injEq] at heq
        have hk : (n == k) = true := by simp [heq.1]
        rw [List.lookup]
        simp only [hk]
        rw [heq.2]
      · have hne : n ≠ k := by
          intro hc
          subst hc
          exact hnd.1 (List.mem_map.mpr ⟨(n, d), hmem, rfl⟩)
        have hk : (n == k) = false := by simpa using hne
        rw [List.lookup]
        simp only [hk]
        exact ih hnd.2 hmem

theorem existsFile_iff_mem {st : FileState} {m : String} :
    existsFile st m = true ↔ m ∈ st.map Prod.fst := by
  unfold existsFile
  rw [List.any_eq_true]
  constructor
  · rintro ⟨e, he, heq⟩
    exact List.mem_map.mpr ⟨e, he, by simpa using heq⟩
  · intro hm
    rcases List.mem_map.mp hm with ⟨e, he, heq⟩
    exact ⟨e, he, by simpa using heq⟩

theorem lookup_removeFile_ne (st : FileState) (fname m : String)
    (h : m ≠ fname) : (removeFile st fname).lookup m = st.lookup m := by
  induction st with
  | nil => rfl
  | cons e rest ih =>
    match e with
    | (k, v) =>
      unfold removeFile
      simp only [List.filter]
      by_cases hk : k = fname
      · have hkb : (k != fname) = false := by simpa using hk
        simp only [hkb]
        have hmk : (m == k) = false := by subst hk; simpa using h
        simp only [List.lookup, hmk]
        exact ih
      · have hkb : (k != fname) = true := by simpa using hk
        simp only [hkb]
        simp only [List.lookup]
        cases hmk : m == k with
        | true => simp only [hmk]
        | false => simp only [hmk]; exact ih

/-! ## Helper lemmas: runs of the rename loop -/
theorem processFiles_cons (dryRun : Bool) (st : FileState) (n : String)
    (rest : List String) :
    processFiles dryRun st (n :: rest) =
      ((processFiles dryRun (stepFile dryRun st n).2 rest).1,
        (stepFile dryRun st n).1 :: (processFiles dryRun (stepFile dryRun st n).2 rest).2) := rfl

theorem stepFile_state_of_not_act (dryRun : Bool) (st : FileState) (n : String)
    (h : isAct (decideFile n (st.lookup n).join) = false) :
    (stepFile dryRun st n).2 = st ∧ isRenamed (stepFile dryRun st n).1 = false ∧
      ((stepFile dryRun st n).1 == Action.deleted) = false := by
  simp only [stepFile]
  cases hd : decideFile n (st.lookup n).join with
  | skipEmpty => simp [isRenamed]
  | errNoId => simp [isRenamed]
  | errBadId => simp [isRenamed]
  | skipNoop => simp [isRenamed]
  | errExc => simp [isRenamed]
  | act s => rw [hd] at h; simp [isAct] at h

theorem stepFile_act_exists (st : FileState) (n s : String)
    (hd : decideFile n (st.lookup n).join = .act s)
    (hex : existsFile st (s ++ ".yaml") = true) :
    stepFile false st n = (.deleted, removeFile st n) := by
  simp only [stepFile]
  rw [hd]
  simp [hex]

theorem stepFile_act_not_exists (st : FileState) (n s : String)
    (hd : decideFile n (st.lookup n).join = .act s)
    (hex : existsFile st (s ++ ".yaml") = false) :
    stepFile false st n = (.renamed (s ++ ".yaml"), renameFile st n (s ++ ".yaml")) := by
  simp only [stepFile]
  rw [hd]
  simp [hex]

theorem noExtOcc_of_goodDocB {d : Doc} {s : String}
    (hg : goodDocB d = true) (hu : uuidOf d = some s) : noExtOcc s := by
  unfold goodDocB at hg
  rw [hu] at hg
  rw [Bool.and_eq_true, Bool.not_eq_true', Bool.not_eq_true'] at hg
  exact hg



theorem processFiles_safe (names : List String) :
    ∀ (st : FileState),
      (∀ e ∈ st, goodDocB e.2 = true) →
      (st.map Prod.fst).Nodup →
      names.Nodup →
      (∀ n ∈ names, n ∈ st.map Prod.fst) →
      (∀ e ∈ st, yamlishName e.1 = true → e.1 ∉ names →
        isAct (decideFile e.1 e.2) = false) →
      ((∀ e ∈ (processFiles false st names).1, yamlishName e.1 = true →
          isAct (decideFile e.1 e.2) = false) ∧
        ((processFiles false st names).1.map Prod.fst).Nodup ∧
        (∀ e ∈ (processFiles false st names).1, goodDocB e.2 = true)) := by
  induction names with
  | nil =>
    intro st hgood hnodup _ _ hstable
    exact ⟨fun e he hy => hstable e he hy (List.not_mem_nil _), hnodup, hgood⟩
  | cons n rest ih =>
    intro st hgood hnodup hnodupN hsub hstable
    obtain ⟨hn_rest, hrestnd⟩ := List.nodup_cons.mp hnodupN
    rw [processFiles_cons]
    simp only
    cases hact : isAct (decideFile n (st.lookup n).join) with
    | false =>
      obtain ⟨hst1, -, -⟩ := stepFile_state_of_not_act false st n hact
      rw [hst1]
      apply ih st hgood hnodup hrestnd
      · intro m hm
        exact hsub m (List.mem_cons_of_mem _ hm)
      · intro e he hy hni
        by_cases hen : e.1 = n
        · have he2 : (n, e.2) ∈ st := by rw [← hen]; exact he
          have hl : st.lookup n = some e.2 := lookup_eq_some_of_mem_nodup hnodup he2
          have : decideFile e.1 e.2 = decideFile n (st.lookup n).join := by
            rw [hl, hen]
            rfl
          rw [this]
          exact hact
        · exact hstable e he hy (by
            intro hmem
            rcases List.mem_cons.mp hmem with h1 | h2
            · exact hen h1
            · exact hni h2)
    | true =>
      -- the decision is an act; extract the short id and the document
      cases hl : st.lookup n with
      | none =>
        rw [hl] at hact
        simp [isAct, decideFile, Option.join] at hact
      | some dn =>
        have hjoin : (st.lookup n).join = dn := by rw [hl]; rfl
        cases hd : decideFile n dn with
        | skipEmpty => rw [hjoin, hd] at hact; simp [isAct] at hact
        | errNoId => rw [hjoin, hd] at hact; simp [isAct] at hact
        | errBadId => rw [hjoin, hd] at hact; simp [isAct] at hact
        | skipNoop => rw [hjoin, hd] at hact; simp [isAct] at hact
        | errExc => rw [hjoin, hd] at hact; simp [isAct] at hact
        | act s =>
          have hd' : decideFile n (st.lookup n).join = .act s := by rw [hjoin]; exact hd
          have hmem : (n, dn) ∈ st := mem_of_lookup_eq_some hl
          have huuid : uuidOf dn = some s := uuid_some_of_decideFile_act n dn s hd
          have hnoExt : noExtOcc s := noExtOcc_of_goodDocB (hgood (n, dn) hmem) huuid
          cases hex : existsFile st (s ++ ".yaml") with
          | true =>
            rw [stepFile_act_exists st n s hd' hex]
            simp only
            apply ih (removeFile st n)
            · intro e he
              exact hgood e (List.mem_of_mem_filter he)
            · exact List.Nodup.sublist (List.Sublist.map _ (List.filter_sublist st)) hnodup
            · exact hrestnd
            · intro m hm
              have hmn : m ≠ n := fun hc => hn_rest (hc ▸ hm)
              rcases List.mem_map.mp (hsub m (List.mem_cons_of_mem _ hm)) with ⟨e, he, hke⟩
              apply List.mem_map.mpr
              have hne : (e.1 != n) = true := by simp [hke, hmn]
              exact ⟨e, List.mem_filter.mpr ⟨he, hne⟩, hke⟩
            · intro e he hy hni
              have he2 := List.mem_filter.mp he
              have hen : e.1 ≠ n := by simpa using he2.2
              exact hstable e he2.1 hy (by
                intro hmemN
                rcases List.mem_cons.mp hmemN with h1 | h2
                · exact hen h1
                · exact hni h2)
          | false =>
            rw [stepFile_act_not_exists st n s hd' hex]
            simp only
            have hnewNotMem : (s ++ ".yaml") ∉ st.map Prod.fst := by
              intro hc
              rw [← existsFile_iff_mem] at hc
              rw [hc] at hex
              cases hex
            have hkeys : (renameFile st n (s ++ ".yaml")).map Prod.fst =
                (st.map Prod.fst).map
                  (fun k => if k == n then s ++ ".yaml" else k) := by
              unfold renameFile
              rw [List.map_map, List.map_map]
              apply List.map_congr_left
              intro e he
              by_cases hk : e.1 == n
              · simp only [Function.comp_apply, hk, if_pos]
              · simp only [Function.comp_apply]
                rw [if_neg hk, if_neg hk]
            apply ih (renameFile st n (s ++ ".yaml"))
            · intro e he
              rcases List.mem_map.mp he with ⟨e0, he0, hge⟩
              have : e.2 = e0.2 := by
                by_cases hk : e0.1 == n
                · rw [if_pos hk] at hge; rw [← hge]
                · rw [if_neg hk] at hge; rw [← hge]
              rw [this]
              exact hgood e0 he0
            · rw [hkeys]
              apply List.Nodup.map_on _ hnodup
              intro k1 hk1 k2 hk2 heq
              by_cases h1 : k1 == n
              · by_cases h2 : k2 == n
                · have e1 : k1 = n := by simpa using h1
                  have e2 : k2 = n := by simpa using h2
                  rw [e1, e2]
                · rw [if_pos h1, if_neg h2] at heq
                  exact absurd (heq ▸ hk2) hnewNotMem
              · by_cases h2 : k2 == n
                · rw [if_neg h1, if_pos h2] at heq
                  exact absurd (heq ▸ hk1) hnewNotMem
                · rw [if_neg h1, if_neg h2] at heq
                  exact heq
            · exact hrestnd
            · intro m hm
              have hmn : m ≠ n := fun hc => hn_rest (hc ▸ hm)
              rw [hkeys]
              apply List.mem_map.mpr
              refine ⟨m, hsub m (List.mem_cons_of_mem _ hm), ?_⟩
              rw [if_neg (by simpa using hmn)]
            · intro e he hy hni
              rcases List.mem_map.mp he with ⟨e0, he0, hge⟩
              by_cases hk : e0.1 == n
              · rw [if_pos hk] at hge
                have he0n : e0.1 = n := by simpa using hk
                have he0mem : (n, e0.2) ∈ st := by rw [← he0n]; exact he0
                have hl0 : st.lookup n = some e0.2 :=
                  lookup_eq_some_of_mem_nodup hnodup he0mem
                have hdn : e0.2 = dn := by
                  have h12 : some e0.2 = some dn := hl0.symm.trans hl
                  injection h12
                rw [← hge]
                simp only
                have hstem : stemOf (s ++ ".yaml") = s := stemOf_append_yaml s hnoExt
                rw [hdn]
                rw [decideFile_of_uuid_some (s ++ ".yaml") dn s huuid]
                rw [if_pos hstem]
                rfl
              · rw [if_neg hk] at hge
                rw [← hge] at hy hni ⊢
                have hen : e0.1 ≠ n := by simpa using hk
                exact hstable e0 he0 hy (by
                  intro hmemN
                  rcases List.mem_cons.mp hmemN with h1 | h2
                  · exact hen h1
                  · exact hni h2)



theorem processFiles_noop_of_safe (names : List String) :
    ∀ (st : FileState),
      (∀ e ∈ st, yamlishName e.1 = true → isAct (decideFile e.1 e.2) = false) →
      (st.map Prod.fst).Nodup →
      (∀ n ∈ names, yamlishName n = true) →
      (processFiles false st names).1 = st ∧
        countRenames (processFiles false st names).2 = 0 ∧
        countDeletes (processFiles false st names).2 = 0 := by
  induction names with
  | nil => intro st _ _ _; exact ⟨rfl, rfl, rfl⟩
  | cons n rest ih =>
    intro st hsafe hnodup hnames
    have hact : isAct (decideFile n (st.lookup n).join) = false := by
      cases hl : st.lookup n with
      | none => rfl
      | some d =>
        show isAct (decideFile n d) = false
        exact hsafe (n, d) (mem_of_lookup_eq_some hl) (hnames n (List.mem_cons_self _ _))
    obtain ⟨hst1, hnr, hnd⟩ := stepFile_state_of_not_act false st n hact
    rw [processFiles_cons, hst1]
    obtain ⟨ih1, ih2, ih3⟩ := ih st hsafe hnodup
      (fun m hm => hnames m (List.mem_cons_of_mem _ hm))
    refine ⟨ih1, ?_, ?_⟩
    · unfold countRenames at ih2 ⊢
      rw [List.countP_cons, hnr]
      simpa using ih2
    · unfold countDeletes at ih3 ⊢
      rw [List.countP_cons, hnd]
      simpa using ih3


/-- C1 (amended): provided the directory's filenames are distinct and no
file's valid `open_xpd_uuid` contains `.yaml` or `.yml` as a substring,
running the Identifier Normalizer (non-dry-run) twice in succession
leaves the second pass with zero renames and zero deletions and an
unchanged directory: every file the first pass renamed now has stem equal
to its id and is skipped as a no-op, and every file the first pass left
in place is skipped again for the same reason as before.  (Without the
substring proviso, the no-op check — which removes every occurrence of
the extension strings, not just a trailing one — can fail on a renamed
file, and the second pass deletes it as its own duplicate.) -/
theorem c1_rename_twice_idempotent (st : FileState)
    (hgood : ∀ e ∈ st, goodDocB e.2 = true)
    (hnodup : (st.map Prod.fst).Nodup) :
    (rename_yaml_files_in_category false
        (rename_yaml_files_in_category false st).1).1 =
      (rename_yaml_files_in_category false st).1 ∧
    countRenames (rename_yaml_files_in_category false
        (rename_yaml_files_in_category false st).1).2 = 0 ∧
    countDeletes (rename_yaml_files_in_category false
        (rename_yaml_files_in_category false st).1).2 = 0 := by
  have hpass1 := processFiles_safe (yamlFiles st) st hgood hnodup
    (List.Nodup.filter _ hnodup)
    (fun n hn => List.mem_of_mem_filter hn)
    (fun e he hy hni => absurd (List.mem_filter.mpr
      ⟨List.mem_map.mpr ⟨e, he, rfl⟩, hy⟩) hni)
  obtain ⟨hsafe1, hnodup1, -⟩ := hpass1
  exact processFiles_noop_of_safe (yamlFiles (rename_yaml_files_in_category false st).1)
    (rename_yaml_files_in_category false st).1 hsafe1 hnodup1
    (fun n hn => (List.mem_filter.mp hn).2)

/-! ## Helper lemmas: sorting -/

theorem lex3Le_total (a b : String × String × String) : lex3Le a b ∨ lex3Le b a := by
  unfold lex3Le
  rcases lt_trichotomy a.1 b.1 with h | h | h
  · exact Or.inl (Or.inl h)
  · rcases lt_trichotomy a.2.1 b.2.1 with h2 | h2 | h2
    · exact Or.inl (Or.inr ⟨h, Or.inl h2⟩)
    · rcases le_total a.2.2 b.2.2 with h3 | h3
      · exact Or.inl (Or.inr ⟨h, Or.inr ⟨h2, h3⟩⟩)
      · exact Or.inr (Or.inr ⟨h.symm, Or.inr ⟨h2.symm, h3⟩⟩)
    · exact Or.inr (Or.inr ⟨h.symm, Or.inl h2⟩)
  · exact Or.inr (Or.inl h)

theorem lex3Le_trans (a b c : String × String × String)
    (h1 : lex3Le a b) (h2 : lex3Le b c) : lex3Le a c := by
  unfold lex3Le at h1 h2 ⊢
  rcases h1 with h1 | ⟨e1, h1⟩
  · rcases h2 with h2 | ⟨e2, h2⟩
    · exact Or.inl (lt_trans h1 h2)
    · exact Or.inl (by rw [← e2]; exact h1)
  · rcases h2 with h2 | ⟨e2, h2⟩
    · exact Or.inl (by rw [e1]; exact h2)
    · refine Or.inr ⟨e1.trans e2, ?_⟩
      rcases h1 with h1 | ⟨f1, h1⟩
      · rcases h2 with h2 | ⟨f2, h2⟩
        · exact Or.inl (lt_trans h1 h2)
        · exact Or.inl (by rw [← f2]; exact h1)
      · rcases h2 with h2 | ⟨f2, h2⟩
        · exact Or.inl (by rw [f1]; exact h2)
        · exact Or.inr ⟨f1.trans f2, le_trans h1 h2⟩

theorem lex3Le_refl (a : String × String × String) : lex3Le a a :=
  Or.inr ⟨rfl, Or.inr ⟨rfl, le_refl _⟩⟩

instance : IsTotal ProductRow categoryNameLe :=
  ⟨fun a b => le_total a.name b.name⟩

instance : IsTrans ProductRow categoryNameLe :=
  ⟨fun _ _ _ hab hbc => le_trans hab hbc⟩

instance : IsTotal MasterRow masterKeyLe :=
  ⟨fun a b => lex3Le_total (masterKey a) (masterKey b)⟩

instance : IsTrans MasterRow masterKeyLe :=
  ⟨fun _ _ _ => lex3Le_trans _ _ _⟩

theorem filter_orderedInsert {α : Type} (r : α → α → Prop) [DecidableRel r]
    (q : α → Bool) (hq : ∀ a b, ¬ r a b → q a = true → q b = false) :
    ∀ (l : List α) (a : α),
      (l.orderedInsert r a).filter q =
        if q a then a :: l.filter q else l.filter q := by
  intro l
  induction l with
  | nil =>
    intro a
    cases hqa : q a <;> simp [List.orderedInsert, List.filter, hqa]
  | cons b l ih =>
    intro a
    rw [List.orderedInsert]
    by_cases hr : r a b
    · rw [if_pos hr]
      cases hqa : q a <;> simp [List.filter, hqa]
    · rw [if_neg hr]
      cases hqb : q b with
      | true =>
        cases hqa : q a with
        | true =>
          have := hq a b hr hqa
          rw [hqb] at this
          cases this
        | false =>
          simp only [List.filter, hqb, if_false]
          rw [ih a, if_neg (by simp [hqa])]
          simp [List.filter, hqb]
      | false =>
        simp only [List.filter, hqb]
        rw [ih a]

theorem filter_insertionSort {α : Type} (r : α → α → Prop) [DecidableRel r]
    (q : α → Bool) (hq : ∀ a b, ¬ r a b → q a = true → q b = false) :
    ∀ l : List α, (l.insertionSort r).filter q = l.filter q := by
  intro l
  induction l with
  | nil => rfl
  | cons a t ih =>
    rw [List.insertionSort, filter_orderedInsert r q hq, ih]
    cases hqa : q a <;> simp [List.filter, hqa]

/-! ## Helper lemmas: dry runs and tallies -/

theorem stepFile_dry_state (st : FileState) (n : String) :
    (stepFile true st n).2 = st := by
  simp only [stepFile]
  cases hd : decideFile n (st.lookup n).join with
  | skipEmpty => rfl
  | errNoId => rfl
  | errBadId => rfl
  | skipNoop => rfl
  | errExc => rfl
  | act s =>
    by_cases hex : existsFile st (s ++ ".yaml") = true
    · simp [hex]
    · simp [hex]

theorem stepFile_dry_action (st : FileState) (n : String) :
    (stepFile true st n).1 = (stepFile false st n).1 := by
  simp only [stepFile]
  cases hd : decideFile n (st.lookup n).join with
  | skipEmpty => rfl
  | errNoId => rfl
  | errBadId => rfl
  | skipNoop => rfl
  | errExc => rfl
  | act s =>
    by_cases hex : existsFile st (s ++ ".yaml") = true
    · simp [hex]
    · simp [hex]

theorem processFiles_dry_state (names : List String) :
    ∀ st : FileState, (processFiles true st names).1 = st := by
  induction names with
  | nil => intro st; rfl
  | cons n rest ih =>
    intro st
    rw [processFiles_cons, stepFile_dry_state]
    exact ih st

theorem tally_foldl_filter_deleted :
    ∀ (acts : List Action) (t : Tally),
      acts.foldl tallyAction t =
        (acts.filter (fun a => a != Action.deleted)).foldl tallyAction t := by
  intro acts
  induction acts with
  | nil => intro t; rfl
  | cons a as ih =>
    intro t
    cases a <;> simp [List.filter, List.foldl, tallyAction, ih]

/-! ## The claims -/

/-- C2 (counterexample): the claim fails on the code in both halves.  A
present-but-empty `open_xpd_uuid` is returned verbatim instead of falling
back to the filename stem, and the filename fallback removes a
non-trailing `.yml` occurrence, which trailing-suffix stripping
(`claimed_stem`) would keep. -/
theorem c2_counterexample :
    extract_short_id (.map [("open_xpd_uuid", .str "")]) "f.yaml" = .ok (.str "") ∧
    ("" : String) ≠ claimed_stem "f.yaml" ∧
    extract_short_id (.map []) "a.yml.b.yaml" = .ok (.str "a.b") ∧
    ("a.b" : String) ≠ claimed_stem "a.yml.b.yaml" :=
  ⟨rfl, by decide, rfl, by decide⟩

/-- C2 (amended): `extract_short_id` returns the `open_xpd_uuid` value
verbatim whenever the key is present — even when the value is empty or
not a string — and only when the key is absent returns the filename with
all occurrences of `.yaml` removed and then all occurrences of `.yml`
removed; when the filename is a clean base (no embedded extension
substrings) followed by a single trailing `.yaml`, this coincides with
stripping the trailing suffix. -/
theorem c2_extract_short_id (m : List (String × Yaml)) (filename : String) :
    (∀ v, m.lookup "open_xpd_uuid" = some v →
      extract_short_id (.map m) filename = .ok v) ∧
    (m.lookup "open_xpd_uuid" = none →
      extract_short_id (.map m) filename = .ok (.str (stemOf filename))) ∧
    (m.lookup "open_xpd_uuid" = none → ∀ base, noExtOcc base →
      extract_short_id (.map m) (base ++ ".yaml") = .ok (.str base)) := by
  refine ⟨?_, ?_, ?_⟩
  · intro v h
    simp [extract_short_id, pyContains, pyGetItem, h]
  · intro h
    simp [extract_short_id, pyContains, pyGetItem, h, stemOf]
  · intro h base hb
    have hstem := stemOf_append_yaml base hb
    unfold stemOf at hstem
    simp [extract_short_id, pyContains, pyGetItem, h, hstem]

/-- C2 (witness for the amended theorem): a present id is returned
verbatim; an absent id falls back to the stripped filename. -/
theorem c2_extract_short_id_witness :
    ([(("open_xpd_uuid" : String), Yaml.str "short-1")].lookup "open_xpd_uuid"
        = some (Yaml.str "short-1")) ∧
    extract_short_id (.map [("open_xpd_uuid", .str "short-1")]) "long-uuid-1.yaml"
        = .ok (.str "short-1") ∧
    (([] : List (String × Yaml)).lookup "open_xpd_uuid" = none) ∧
    noExtOcc "abc" ∧
    extract_short_id (.map []) ("abc" ++ ".yaml") = .ok (.str "abc") :=
  ⟨rfl,
    (c2_extract_short_id [("open_xpd_uuid", .str "short-1")] "long-uuid-1.yaml").1
      (Yaml.str "short-1") rfl,
    rfl,
    by unfold noExtOcc; decide,
    (c2_extract_short_id [] ("abc" ++ ".yaml")).2.2 rfl "abc" (by unfold noExtOcc; decide)⟩

/-- C6 (counterexample): with `--path data`, the master CSV is opened at
`all_products.csv` in the working directory, not at
`data/all_products.csv` as the claim requires. -/
theorem c6_counterexample :
    master_csv_path_main "data" = "all_products.csv" ∧
    claimed_master_csv_path "data" = "data/all_products.csv" ∧
    master_csv_path_main "data" ≠ claimed_master_csv_path "data" :=
  ⟨rfl, by decide, by decide⟩

/-- C6 (amended): for every base path passed via `--path`, the master CSV
is created at the fixed working-directory-relative path
`all_products.csv`; `generate_master_csv(args.path)` binds the base path
to the `base_path` parameter and leaves `output_file` at its default, so
the base path does not influence the output location. -/
theorem c6_master_csv_path (base_path : String) :
    master_csv_path_main base_path = "all_products.csv" := rfl

/-- C7 (counterexample): a `.yml` file with id `s` is renamed to
`s.yaml`, not to `s.yml` as the claim requires. -/
theorem c7_counterexample :
    stepFile false [("long.yml", some (.map [("open_xpd_uuid", .str "s")]))] "long.yml"
      = (.renamed "s.yaml",
          [("s.yaml", some (.map [("open_xpd_uuid", .str "s")]))]) ∧
    ("s.yaml" : String) ≠ "s.yml" :=
  ⟨rfl, by decide⟩

/-- C7 (amended): every file the Normalizer renames gets the new name
`<short_id>.yaml` regardless of its original extension (the code always
builds `f"{short_id}.yaml"`). -/
theorem c7_rename_target (st : FileState) (fname sid : String)
    (hd : decideFile fname (st.lookup fname).join = .act sid)
    (hex : existsFile st (sid ++ ".yaml") = false) :
    stepFile false st fname
      = (.renamed (sid ++ ".yaml"), renameFile st fname (sid ++ ".yaml")) :=
  stepFile_act_not_exists st fname sid hd hex

/-- C7 (witness): the amended theorem applied to a concrete `.yml` file. -/
theorem c7_rename_target_witness :
    decideFile "long.yml"
        (([(("long.yml" : String), some (Yaml.map [("open_xpd_uuid", Yaml.str "s")]))].lookup
          "long.yml").join) = .act "s" ∧
    existsFile [("long.yml", some (.map [("open_xpd_uuid", .str "s")]))] ("s" ++ ".yaml")
        = false ∧
    stepFile false [("long.yml", some (.map [("open_xpd_uuid", .str "s")]))] "long.yml"
        = (.renamed ("s" ++ ".yaml"),
            renameFile [("long.yml", some (.map [("open_xpd_uuid", .str "s")]))]
              "long.yml" ("s" ++ ".yaml")) :=
  ⟨rfl, rfl,
    c7_rename_target [("long.yml", some (.map [("open_xpd_uuid", .str "s")]))]
      "long.yml" "s" rfl rfl⟩

/-- C9: a file resolved through the delete-on-collision branch is counted
in none of the per-category tallies: `tallyAction` leaves the tally
unchanged on `deleted`, and hence the summary tallies of any run equal
those of the same run with the deleted actions removed. -/
theorem c9_deletions_not_counted (dryRun : Bool) (st : FileState)
    (names : List String) :
    (∀ t : Tally, tallyAction t .deleted = t) ∧
    tallyOf (processFiles dryRun st names).2 =
      tallyOf ((processFiles dryRun st names).2.filter
        (fun a => a != Action.deleted)) :=
  ⟨fun _ => rfl, tally_foldl_filter_deleted _ _⟩

/-- C10: whenever the top-level `name` key is present — including with a
null or empty value — `extract_product_name` returns exactly that value;
the other name sources and the `"Unknown Product"` fallback are never
consulted. -/
theorem c10_name_key_always_wins (m : List (String × Yaml)) (v : Yaml)
    (h : m.lookup "name" = some v) :
    extract_product_name (.map m) = .ok v := by
  simp [extract_product_name, pyContains, pyGetItem, h]

/-- C10 (witness): a document with `name: null` and a non-empty
`product_name` still yields the null name. -/
theorem c10_name_key_always_wins_witness :
    ([(("name" : String), Yaml.null), ("product_name", Yaml.str "X")].lookup "name"
        = some Yaml.null) ∧
    extract_product_name (.map [("name", Yaml.null), ("product_name", Yaml.str "X")])
        = .ok Yaml.null :=
  ⟨rfl, c10_name_key_always_wins [("name", Yaml.null), ("product_name", Yaml.str "X")]
    Yaml.null rfl⟩


/-- C3 (counterexample): reading "filename stem" as trailing-suffix
stripping, the claim fails.  `a.yamlb.yaml` has trailing stem `a.yamlb`,
which differs from its id `ab`, and the target `ab.yaml` exists — the
claim then requires a deletion — but the code's replace-all stem is `ab`,
so the file is skipped as a no-op and nothing is deleted. -/
theorem c3_counterexample :
    claimed_stem "a.yamlb.yaml" ≠ "ab" ∧
    existsFile [("a.yamlb.yaml", some (.map [("open_xpd_uuid", .str "ab")])),
      ("ab.yaml", some (.map [("open_xpd_uuid", .str "ab")]))] ("ab" ++ ".yaml")
        = true ∧
    stepFile false
      [("a.yamlb.yaml", some (.map [("open_xpd_uuid", .str "ab")])),
        ("ab.yaml", some (.map [("open_xpd_uuid", .str "ab")]))] "a.yamlb.yaml"
      = (.skippedNoop,
          [("a.yamlb.yaml", some (.map [("open_xpd_uuid", .str "ab")])),
            ("ab.yaml", some (.map [("open_xpd_uuid", .str "ab")]))]) :=
  ⟨by decide, rfl, rfl⟩

/-- C3 (amended): with the stem read as the code computes it (all
occurrences of `.yaml` and then `.yml` removed), a file whose valid id
differs from its stem and whose target `<id>.yaml` exists at processing
time is deleted, and every other file — in particular the pre-existing
`<id>.yaml` — keeps its name and content. -/
theorem c3_delete_on_collision (st : FileState) (fname sid : String)
    (hd : decideFile fname (st.lookup fname).join = .act sid)
    (hex : existsFile st (sid ++ ".yaml") = true) :
    stepFile false st fname = (.deleted, removeFile st fname) ∧
    (∀ m, m ≠ fname → (removeFile st fname).lookup m = st.lookup m) :=
  ⟨stepFile_act_exists st fname sid hd hex,
    fun m hm => lookup_removeFile_ne st fname m hm⟩

/-- C3 (witness): the spec's collision scenario — `long-uuid-1.yaml`
carrying `open_xpd_uuid: short-1` next to a pre-existing `short-1.yaml` —
run through the amended theorem: the long file is deleted while
`short-1.yaml` still maps to its original content. -/
theorem c3_delete_on_collision_witness :
    decideFile "long-uuid-1.yaml"
        (([(("long-uuid-1.yaml" : String),
            some (Yaml.map [("open_xpd_uuid", Yaml.str "short-1")])),
          ("short-1.yaml", some (Yaml.map [("name", Yaml.str "keeper")]))].lookup
          "long-uuid-1.yaml").join) = .act "short-1" ∧
    existsFile [("long-uuid-1.yaml", some (.map [("open_xpd_uuid", .str "short-1")])),
        ("short-1.yaml", some (.map [("name", .str "keeper")]))] ("short-1" ++ ".yaml")
      = true ∧
    stepFile false
        [("long-uuid-1.yaml", some (.map [("open_xpd_uuid", .str "short-1")])),
          ("short-1.yaml", some (.map [("name", .str "keeper")]))] "long-uuid-1.yaml"
      = (.deleted, removeFile
          [("long-uuid-1.yaml", some (.map [("open_xpd_uuid", .str "short-1")])),
            ("short-1.yaml", some (.map [("name", .str "keeper")]))] "long-uuid-1.yaml") ∧
    (removeFile
        [("long-uuid-1.yaml", some (.map [("open_xpd_uuid", .str "short-1")])),
          ("short-1.yaml", some (.map [("name", .str "keeper")]))] "long-uuid-1.yaml").lookup
        "short-1.yaml"
      = some (some (.map [("name", .str "keeper")])) :=
  ⟨rfl, rfl,
    (c3_delete_on_collision
      [("long-uuid-1.yaml", some (.map [("open_xpd_uuid", .str "short-1")])),
        ("short-1.yaml", some (.map [("name", .str "keeper")]))]
      "long-uuid-1.yaml" "short-1" rfl rfl).1,
    rfl⟩

/-- C4 (counterexample): two files both carrying id `s`.  The live run
renames the first and then deletes the second (its target now exists),
while the dry run — whose collision checks always see the initial state —
reports a rename for both.  The dry run thus does not report the action
the live run takes for the second file. -/
theorem c4_counterexample :
    (rename_yaml_files_in_category true
        [("a.yaml", some (.map [("open_xpd_uuid", .str "s")])),
          ("b.yaml", some (.map [("open_xpd_uuid", .str "s")]))]).1
      = [("a.yaml", some (.map [("open_xpd_uuid", .str "s")])),
          ("b.yaml", some (.map [("open_xpd_uuid", .str "s")]))] ∧
    (rename_yaml_files_in_category true
        [("a.yaml", some (.map [("open_xpd_uuid", .str "s")])),
          ("b.yaml", some (.map [("open_xpd_uuid", .str "s")]))]).2
      = [.renamed "s.yaml", .renamed "s.yaml"] ∧
    (rename_yaml_files_in_category false
        [("a.yaml", some (.map [("open_xpd_uuid", .str "s")])),
          ("b.yaml", some (.map [("open_xpd_uuid", .str "s")]))]).2
      = [.renamed "s.yaml", .deleted] ∧
    Action.renamed "s.yaml" ≠ Action.deleted :=
  ⟨rfl, rfl, rfl, by decide⟩

/-- C4 (amended): dry-run performs no filesystem mutation, and for each
file it reports the action the non-dry-run would take on that file
evaluated against the state the dry run sees; because the dry run never
mutates, that is the initial directory state, so its report can differ
from the live run when an earlier live mutation changes a later file's
collision check. -/
theorem c4_dry_run (st : FileState) (names : List String) (n : String) :
    (processFiles true st names).1 = st ∧
    (rename_yaml_files_in_category true st).1 = st ∧
    (stepFile true st n).1 = (stepFile false st n).1 :=
  ⟨processFiles_dry_state names st, processFiles_dry_state (yamlFiles st) st,
    stepFile_dry_action st n⟩


/-- C5 (counterexample): the code has no mapping check on
`product_specific`.  For `{product_specific: null}` the claim requires
the `"Unknown Product"` fallback, but Python's `'product_name' in None`
raises `TypeError`, so the function raises instead of returning. -/
theorem c5_counterexample :
    extract_product_name (.map [("product_specific", Yaml.null)]) = .error () ∧
    claimed_product_name [("product_specific", Yaml.null)] = .str "Unknown Product" :=
  ⟨rfl, rfl⟩

/-- C5 (amended): provided `product_specific`, when present, is itself a
mapping, `extract_product_name` follows the claimed first-match-wins
resolution order — top-level `name`, nested `product_specific.product_name`,
top-level `product_name`, literal `"Unknown Product"` — and never raises;
without that proviso the membership test on a non-container value raises. -/
theorem c5_name_resolution (m : List (String × Yaml))
    (h : psIsMapOrAbsent m = true) :
    extract_product_name (.map m) = .ok (claimed_product_name m) := by
  unfold psIsMapOrAbsent at h
  unfold extract_product_name claimed_product_name
  simp only [pyContains]
  cases hn : m.lookup "name" with
  | some v => simp [hn, pyGetItem]
  | none =>
    simp only [hn, Option.isSome_none]
    cases hps : m.lookup "product_specific" with
    | none =>
      simp only [hps, Option.isSome_none]
      unfold productNameFallback
      simp only [pyContains]
      cases hpn : m.lookup "product_name" with
      | some w => simp [hpn, pyGetItem]
      | none => simp [hpn]
    | some v =>
      rw [hps] at h
      cases v with
      | map pm =>
        simp only [hps, Option.isSome_some, pyGetItem, pyContains]
        cases hpn : pm.lookup "product_name" with
        | some w => simp [hpn, pyGetItem]
        | none =>
          simp only [hpn, Option.isSome_none]
          unfold productNameFallback
          simp only [pyContains]
          cases hq : m.lookup "product_name" with
          | some w => simp [hq, pyGetItem]
          | none => simp [hq]
      | null => simp [isMapB] at h
      | bool b => simp [isMapB] at h
      | int k => simp [isMapB] at h
      | str s => simp [isMapB] at h
      | list l => simp [isMapB] at h

/-- C5 (witness): the amended theorem applied to a document whose only
name source is the nested `product_specific.product_name`. -/
theorem c5_name_resolution_witness :
    psIsMapOrAbsent [("product_specific", Yaml.map [("product_name", Yaml.str "N")])]
        = true ∧
    extract_product_name
        (.map [("product_specific", Yaml.map [("product_name", Yaml.str "N")])])
      = .ok (.str "N") :=
  ⟨rfl,
    c5_name_resolution [("product_specific", Yaml.map [("product_name", Yaml.str "N")])]
      rfl⟩


/-- C8: the per-category CSV rows are the collected records sorted
ascending by name under Lean's case-sensitive lexicographic string order,
stably (records of equal name keep their original relative order, stated
as filter-invariance for every name); the master CSV rows are sorted
ascending by the lexicographic (region, category, name) key, stably. -/
theorem c8_csv_row_order (ps : List ProductRow) (ms : List MasterRow) :
    List.Sorted categoryNameLe (generate_category_csv_rows ps) ∧
    List.Perm (generate_category_csv_rows ps) ps ∧
    (∀ nm : String,
      (generate_category_csv_rows ps).filter (fun p => p.name == nm)
        = ps.filter (fun p => p.name == nm)) ∧
    List.Sorted masterKeyLe (generate_master_csv_rows ms) ∧
    List.Perm (generate_master_csv_rows ms) ms ∧
    (∀ k : String × String × String,
      (generate_master_csv_rows ms).filter (fun p => masterKey p == k)
        = ms.filter (fun p => masterKey p == k)) := by
  refine ⟨List.sorted_insertionSort categoryNameLe ps,
    List.perm_insertionSort categoryNameLe ps, ?_,
    List.sorted_insertionSort masterKeyLe ms,
    List.perm_insertionSort masterKeyLe ms, ?_⟩
  · intro nm
    apply filter_insertionSort categoryNameLe (fun p => p.name == nm)
    intro a b hr hqa
    have hlt : b.name < a.name := lt_of_not_le hr
    have ha : a.name = nm := by simpa using hqa
    have hb : b.name ≠ nm := by
      intro hc
      rw [← ha] at hc
      rw [hc] at hlt
      exact lt_irrefl _ hlt
    simpa using hb
  · intro k
    apply filter_insertionSort masterKeyLe (fun p => masterKey p == k)
    intro a b hr hqa
    by_contra hqb'
    have hqb : (masterKey b == k) = true := by
      cases hq2 : (masterKey b == k) with
      | true => rfl
      | false => exact absurd hq2 hqb'
    have ha : masterKey a = k := by simpa using hqa
    have hb : masterKey b = k := by simpa using hqb
    apply hr
    unfold masterKeyLe
    rw [ha, hb]
    exact lex3Le_refl k


/-- C1 (counterexample): a file whose id `a.ymlb` embeds `.yml`.  The
first pass renames it to `a.ymlb.yaml`; on the second pass the no-op
check computes stem `ab` (both extension substrings removed), which
differs from the id, the rename target equals the file itself and so
"already exists", and the second pass deletes the file — one deletion,
not zero. -/
theorem c1_counterexample :
    (rename_yaml_files_in_category false
        [("long.yaml", some (.map [("open_xpd_uuid", .str "a.ymlb")]))]).2
      = [.renamed "a.ymlb.yaml"] ∧
    (rename_yaml_files_in_category false
        (rename_yaml_files_in_category false
          [("long.yaml", some (.map [("open_xpd_uuid", .str "a.ymlb")]))]).1).2
      = [.deleted] ∧
    countDeletes
      (rename_yaml_files_in_category false
        (rename_yaml_files_in_category false
          [("long.yaml", some (.map [("open_xpd_uuid", .str "a.ymlb")]))]).1).2
      = 1 :=
  ⟨rfl, rfl, rfl⟩

/-- C1 (witness for the amended theorem): a directory with two files
carrying the clean id `abc` — the first pass renames one and deletes the
other as a duplicate; the second pass changes nothing and reports zero
renames and zero deletions. -/
theorem c1_rename_twice_idempotent_witness :
    (∀ e ∈ ([("f.yaml", some (Yaml.map [("open_xpd_uuid", Yaml.str "abc")])),
        ("g.yaml", some (Yaml.map [("open_xpd_uuid", Yaml.str "abc")]))] : FileState),
      goodDocB e.2 = true) ∧
    (([("f.yaml", some (Yaml.map [("open_xpd_uuid", Yaml.str "abc")])),
        ("g.yaml", some (Yaml.map [("open_xpd_uuid", Yaml.str "abc")]))] : FileState).map
        Prod.fst).Nodup ∧
    countRenames (rename_yaml_files_in_category false
        (rename_yaml_files_in_category false
          [("f.yaml", some (.map [("open_xpd_uuid", .str "abc")])),
            ("g.yaml", some (.map [("open_xpd_uuid", .str "abc")]))]).1).2 = 0 ∧
    countDeletes (rename_yaml_files_in_category false
        (rename_yaml_files_in_category false
          [("f.yaml", some (.map [("open_xpd_uuid", .str "abc")])),
            ("g.yaml", some (.map [("open_xpd_uuid", .str "abc")]))]).1).2 = 0 :=
  ⟨by decide, by decide,
    (c1_rename_twice_idempotent
      [("f.yaml", some (.map [("open_xpd_uuid", .str "abc")])),
        ("g.yaml", some (.map [("open_xpd_uuid", .str "abc")]))]
      (by decide) (by decide)).2.1,
    (c1_rename_twice_idempotent
      [("f.yaml", some (.map [("open_xpd_uuid", .str "abc")])),
        ("g.yaml", some (.map [("open_xpd_uuid", .str "abc")]))]
      (by decide) (by decide)).2.2⟩

end ProductsData
